import Mathlib

/-!
Shallow embedding of the hierarchical resumable download orchestrator of
yuque-dl (src/src/index.ts).  The pure core — `fixPath`, the ancestor walk,
the per-entry disposition logic of `main`'s traversal loop, and the
surrounding driver — is translated into executable Lean definitions.
External effects (filesystem, network, progress persistence) are made
explicit: the filesystem is a list of existing paths, the article fetcher
is an oracle parameter, and observable actions are recorded as an event
trace.  Machinery that lives in files not present under src
(ProgressBar, Summary) is modelled from the specification and marked as
such in the doc comments.
-/

namespace YuqueDl

/-- Characters matched by the global regex `[\\\/:\*\?"<>\|\n\r]` in
`fixPath` (src/src/index.ts line 142). -/
def isIllegalChar (c : Char) : Bool :=
  c == '\\' || c == '/' || c == ':' || c == '*' || c == '?' || c == '"' ||
  c == '<' || c == '>' || c == '|' || c == '\n' || c == '\r'

/-- Characters matched by the JavaScript regex class `\s` (ECMAScript
WhiteSpace plus LineTerminator: tab, LF, VT, FF, CR, space, NBSP, and the
Unicode space separators plus U+2028, U+2029 and U+FEFF). -/
def isJsWhitespace (c : Char) : Bool :=
  c == ' ' || c == '\t' || c == '\n' || c == '\x0b' || c == '\x0c' || c == '\r' ||
  c == '\u00A0' || c == '\u1680' || c == '\u2000' || c == '\u2001' ||
  c == '\u2002' || c == '\u2003' || c == '\u2004' || c == '\u2005' ||
  c == '\u2006' || c == '\u2007' || c == '\u2008' || c == '\u2009' ||
  c == '\u200A' || c == '\u2028' || c == '\u2029' || c == '\u202F' ||
  c == '\u205F' || c == '\u3000' || c == '\uFEFF'

/-- `str.replace(dirNameReg, '_')` with the global flag: every illegal
character becomes an underscore. -/
def replaceIllegal (l : List Char) : List Char :=
  l.map (fun c => if isIllegalChar c then '_' else c)

/-- `str.replace(/\s/, '')` without the global flag: only the first
whitespace character is removed. -/
def removeFirstWs : List Char → List Char
  | [] => []
  | c :: cs => if isJsWhitespace c then cs else c :: removeFirstWs cs

/-- Translation of `fixPath` (src/src/index.ts lines 140-144): the empty
string is returned unchanged (the only falsy string), otherwise the
illegal characters are replaced globally and the first whitespace
character of the result is removed. -/
def fixPath (s : String) : String :=
  if s = "" then "" else String.mk (removeFirstWs (replaceIllegal s.data))

/-- `item.type.toLocaleLowerCase()` (line 185); the locale-free JS call
agrees with simple characterwise lowercasing on the ASCII tags the code
compares against. -/
def jsToLower (s : String) : String := String.mk (s.data.map Char.toLower)

/-- `pathTitleList.join('/')` (lines 201, 229). -/
def joinPath (l : List String) : String := String.intercalate "/" l

/-- One table-of-contents entry (`KnowledgeBase.Toc`).  `type` is
`none` when the JS value of the `type` field is not a string (the
`typeof item.type !== 'string'` guard at line 182). -/
structure Toc where
  uuid : String
  parent_uuid : String
  title : String
  type : Option String
  url : String
  child_uuid : String
deriving DecidableEq, Repr

/-- `IProgressItem` as constructed by the traversal loop (lines 200-205
and 228-233). -/
structure IProgressItem where
  path : String
  pathTitleList : List String
  pathIdList : List String
  toc : Toc
deriving DecidableEq, Repr

/-- The `uuidMap : Map<string, IProgressItem>` of line 163, kept in
insertion order as JavaScript Maps are. -/
abbrev UuidMap := List (String × IProgressItem)

/-- `uuidMap.set(k, v)`: replaces the binding in place when the key is
present, appends it otherwise. -/
def mapSet (m : UuidMap) (k : String) (v : IProgressItem) : UuidMap :=
  if (m.lookup k).isSome then
    m.map (fun p => if p.1 = k then (k, v) else p)
  else m ++ [(k, v)]

/-- The ancestor walk of lines 188-199: starting from the current entry,
repeatedly `unshift` the sanitized title and the uuid, then follow
`parent_uuid` through `uuidMap` until the parent is absent.  The source
`while (tempItem)` loop has no bound, so the translation takes explicit
fuel; one unit of fuel is one loop iteration.  With fuel `m.length + 1`
the walk exhausts its fuel exactly when the chain of registered parents
revisits a registered item, which is exactly when the source loop never
terminates (the step is deterministic over finitely many registered
items). -/
def walkAux : Nat → UuidMap → Toc → List String → List String →
    Option (List String × List String)
  | 0, _, _, _, _ => none
  | fuel + 1, m, t, titles, ids =>
    match m.lookup t.parent_uuid with
    | some p => walkAux fuel m p.toc (fixPath t.title :: titles) (t.uuid :: ids)
    | none => some (fixPath t.title :: titles, t.uuid :: ids)

/-- Termination of the source ancestor walk on a given index and entry:
some finite number of iterations reaches an absent parent. -/
def WalkTerminates (m : UuidMap) (t : Toc) : Prop :=
  ∃ fuel, (walkAux fuel m t [] []).isSome

/-- Observable actions of one run: directory creation calls, article
fetch attempts, file writes, progress-store appends, and the summary
generation.  The summary generator itself lives in src/Summary.ts, which
is not among the sources; only the fact that `summary.genFile()` is
called (line 291) is recorded. -/
inductive Ev where
  | mkdir (path : String)
  | fetch (uuid : String)
  | fileWrite (path : String)
  | progress (uuid : String) (success : Bool)
  | summaryGen
deriving DecidableEq, Repr

/-- One element of `errArticleInfo` (lines 250-255); the raw JS `err`
object is not modelled, only its message. -/
structure ErrInfo where
  articleUrl : String
  errItem : IProgressItem
  errMsg : String
deriving DecidableEq, Repr

/-- The mutable state of one run of `main`: the uuid index, the
filesystem (as the list of paths that exist), the persisted progress
record with its completed counter, the failure/warning aggregators of
lines 175-179, and the event trace. -/
structure RunState where
  uuidMap : UuidMap
  fs : List String
  persisted : List (IProgressItem × Bool)
  curr : Nat
  errArticleCount : Nat
  totalArticleCount : Nat
  warnArticleCount : Nat
  errArticleInfo : List ErrInfo
  warnArticleInfo : List IProgressItem
  events : List Ev
deriving DecidableEq, Repr

/-- Run context available inside the traversal loop: `bookPath`
(line 151), the article url base computed at line 174 from the source url
and the book slug (kept abstract, its value is irrelevant to the loop),
and the article fetcher as an oracle from the entry uuid to success or a
failure message (`downloadArticle`, whose network and image steps are
external). -/
structure Config where
  bookPath : String
  articleUrlBase : String
  fetch : String → Except String Unit

/-- Boolean success of a fetch outcome (`isSuccess` of lines 234-257). -/
def isOkB (r : Except String Unit) : Bool :=
  match r with
  | Except.ok _ => true
  | Except.error _ => false

/-- `mkdir(p, {recursive: true})`: idempotent creation, the filesystem
gains the path when it is absent. -/
def addPath (fs : List String) (p : String) : List String :=
  if p ∈ fs then fs else fs ++ [p]

/-- Modelled from the spec: `progressBar.updateProgress(item, success)`
(ProgressBar.ts is not among the sources).  Spec section 4.2: the append
is durable before the next entry and increments the completed counter. -/
def updateProgress (st : RunState) (pi : IProgressItem) (success : Bool) : RunState :=
  { st with
    persisted := st.persisted ++ [(pi, success)]
    curr := st.curr + 1
    events := st.events ++ [Ev.progress pi.toc.uuid success] }

/-- The `progressItem` built for a container-like entry (lines 200-205)
from the walk's accumulated title and id lists. -/
def containerItem (item : Toc) (ts ids : List String) : IProgressItem :=
  { path := joinPath ts, pathTitleList := ts, pathIdList := ids, toc := item }

/-- Container-like disposition (lines 200-214): link entries record a
warning instead of a directory; otherwise the directory is created; in
both cases the item is registered and progress is updated with
`itemType !== 'link'` as the success flag. -/
def containerStep (cfg : Config) (st : RunState) (item : Toc) (itemType : String)
    (ts ids : List String) : RunState :=
  let pi := containerItem item ts ids
  let st1 :=
    if itemType = "link" then
      { st with
        warnArticleCount := st.warnArticleCount + 1
        warnArticleInfo := st.warnArticleInfo ++ [pi] }
    else
      { st with
        fs := addPath st.fs (cfg.bookPath ++ "/" ++ joinPath ts)
        events := st.events ++ [Ev.mkdir (cfg.bookPath ++ "/" ++ joinPath ts)] }
  let st2 := { st1 with uuidMap := mapSet st1.uuidMap item.uuid pi }
  updateProgress st2 pi (itemType != "link")

/-- `preItem` resolution for a leaf article (lines 217-224): the parent's
title and id lists, or empty lists when the parent uuid is not in the
index. -/
def articlePre (st : RunState) (item : Toc) : List String × List String :=
  match st.uuidMap.lookup item.parent_uuid with
  | some p => (p.pathTitleList, p.pathIdList)
  | none => ([], [])

/-- The `progressItem` built for a leaf article (lines 225-233):
the parent's segments extended with `fixPath(title) + '.md'` and the
entry's own uuid. -/
def articleItem (st : RunState) (item : Toc) : IProgressItem :=
  let pre := articlePre st item
  let ts := pre.1 ++ [fixPath item.title ++ ".md"]
  let ids := pre.2 ++ [item.uuid]
  { path := joinPath ts, pathTitleList := ts, pathIdList := ids, toc := item }

/-- Leaf-article disposition (lines 215-259): count the attempt, call the
fetcher; on success the file is written, on failure the error is
aggregated; either way the item is registered and progress is updated
with the fetch outcome as the success flag. -/
def articleStep (cfg : Config) (st : RunState) (item : Toc) : RunState :=
  let pi := articleItem st item
  let st1 :=
    { st with
      totalArticleCount := st.totalArticleCount + 1
      events := st.events ++ [Ev.fetch item.uuid] }
  let st2 :=
    match cfg.fetch item.uuid with
    | Except.ok _ =>
      { st1 with
        fs := addPath st1.fs (cfg.bookPath ++ "/" ++ pi.path)
        events := st1.events ++ [Ev.fileWrite (cfg.bookPath ++ "/" ++ pi.path)] }
    | Except.error msg =>
      { st1 with
        errArticleCount := st1.errArticleCount + 1
        errArticleInfo := st1.errArticleInfo ++
          [ErrInfo.mk (cfg.articleUrlBase ++ "/" ++ item.url) pi msg] }
  let st3 := { st2 with uuidMap := mapSet st2.uuidMap item.uuid pi }
  updateProgress st3 pi (isOkB (cfg.fetch item.uuid))

/-- One iteration of the traversal loop (lines 180-260): skip entries
whose `type` is not a string, skip uuids already in the index, then
dispatch on the container condition
`itemType === 'title' || item.child_uuid !== '' || itemType === 'link'`,
then on a non-empty url; otherwise the entry is skipped with no
disposition.  `none` models the only way the body fails to finish: the
ancestor walk running forever. -/
def processEntry (cfg : Config) (st : RunState) (item : Toc) : Option RunState :=
  match item.type with
  | none => some st
  | some ty =>
    if (st.uuidMap.lookup item.uuid).isSome then some st
    else
      let itemType := jsToLower ty
      if itemType = "title" ∨ item.child_uuid ≠ "" ∨ itemType = "link" then
        match walkAux (st.uuidMap.length + 1) st.uuidMap item [] [] with
        | none => none
        | some (ts, ids) => some (containerStep cfg st item itemType ts ids)
      else if item.url ≠ "" then
        some (articleStep cfg st item)
      else some st

/-- The traversal loop itself: `for (let i = 0; i < total; i++)`. -/
def runLoop (cfg : Config) : List Toc → RunState → Option RunState
  | [], st => some st
  | item :: rest, st =>
    match processEntry cfg st item with
    | none => none
    | some st' => runLoop cfg rest st'

/-- The knowledge-base metadata the driver starts from
(`getKnowledgeBaseInfo`).  `bookId = none` models a falsy `bookId`. -/
structure BookInfo where
  bookId : Option Nat
  bookName : String
  bookDesc : String
  tocList : List Toc
deriving Repr

/-- Modelled from the spec: the replay of lines 165-172 populating
`uuidMap` from `progressBar.progressInfo` (ProgressBar.ts is not among
the sources).  Spec section 4.2: on an interrupted run the store exposes
the ordered sequence of previously disposed items; every persisted item
is registered under its toc uuid, whatever its recorded success flag.
When nothing is persisted the replay is a no-op, so the
`isDownloadInterrupted` guard is immaterial here. -/
def replayMap (persisted : List (IProgressItem × Bool)) : UuidMap :=
  persisted.foldl (fun m q => mapSet m q.1.toc.uuid q.1) []

/-- `bookPath` computation of line 151. -/
def bookPathOf (distDir bookName : String) (bid : Nat) : String :=
  distDir ++ "/" ++ (if bookName ≠ "" then fixPath bookName else toString bid)

/-- Translation of `main` (lines 146-301) after the metadata fetch:
the fatal precondition checks of lines 148-149, the book directory
creation, the completed-at-startup early return of lines 158-162 (the
restored counter is modelled from spec section 4.2 as the number of
persisted items), the replay, the traversal loop, and the summary
generation of lines 285-291.  `Except.error` is a thrown fatal error;
`Except.ok none` is a run whose ancestor walk never terminates. -/
def mainRun (distDir articleUrlBase : String) (fetch : String → Except String Unit)
    (info : BookInfo) (persisted : List (IProgressItem × Bool)) (fs0 : List String) :
    Except String (Option RunState) :=
  match info.bookId with
  | none => Except.error "No found book id"
  | some bid =>
    if info.tocList.length = 0 then Except.error "No found toc list"
    else
      let bookPath := bookPathOf distDir info.bookName bid
      let cfg : Config := ⟨bookPath, articleUrlBase, fetch⟩
      let st0 : RunState :=
        { uuidMap := []
          fs := addPath fs0 bookPath
          persisted := persisted
          curr := persisted.length
          errArticleCount := 0
          totalArticleCount := 0
          warnArticleCount := 0
          errArticleInfo := []
          warnArticleInfo := []
          events := [Ev.mkdir bookPath] }
      if persisted.length = info.tocList.length then Except.ok (some st0)
      else
        match runLoop cfg info.tocList { st0 with uuidMap := replayMap persisted } with
        | none => Except.ok none
        | some st2 =>
          Except.ok (some
            { st2 with
              fs := addPath st2.fs (bookPath ++ "/SUMMARY.md")
              events := st2.events ++ [Ev.summaryGen] })

/-- Well-formedness of a progress item: parallel title and id lists, the
item's own uuid last, and `path` the slash-join of the titles. -/
def wfItem (pi : IProgressItem) : Prop :=
  pi.pathTitleList.length = pi.pathIdList.length ∧
  pi.pathIdList.getLast? = some pi.toc.uuid ∧
  pi.path = joinPath pi.pathTitleList

/-- The eleven filesystem-illegal characters named by the specification:
backslash, forward slash, colon, asterisk, question mark, double-quote,
angle brackets, pipe, newline, carriage return. -/
def illegalList : List Char :=
  ['\\', '/', ':', '*', '?', '"', '<', '>', '|', '\n', '\r']

/-- A fetch oracle that always succeeds. -/
def okFetch : String → Except String Unit := fun _ => Except.ok ()

/-- A fetch oracle that always fails. -/
def badFetch : String → Except String Unit := fun _ => Except.error "boom"

/-- A fresh run state with nothing registered. -/
def stEmpty : RunState :=
  { uuidMap := [], fs := [], persisted := [], curr := 0,
    errArticleCount := 0, totalArticleCount := 0, warnArticleCount := 0,
    errArticleInfo := [], warnArticleInfo := [], events := [] }

/-- Sample title entry. -/
def tTitle : Toc :=
  { uuid := "1", parent_uuid := "", title := "Intro", type := some "TITLE",
    url := "", child_uuid := "" }

/-- Sample leaf-article entry, child of `tTitle`. -/
def tDoc : Toc :=
  { uuid := "2", parent_uuid := "1", title := "Hello", type := some "DOC",
    url := "abc", child_uuid := "" }

/-- Sample external-link entry at the root. -/
def tLink : Toc :=
  { uuid := "3", parent_uuid := "", title := "Ext", type := some "LINK",
    url := "http://e", child_uuid := "" }

/-- Sample run context. -/
def cfg0 : Config := ⟨"out/Demo", "https://x/y", okFetch⟩

/-- Sample run context whose fetcher always fails. -/
def cfgBad : Config := ⟨"out/Demo", "https://x/y", badFetch⟩

/-- The progress item the loop builds for `tTitle` from an empty index. -/
def piTitle : IProgressItem :=
  { path := "Intro", pathTitleList := ["Intro"], pathIdList := ["1"], toc := tTitle }

/-- A state in which `tDoc`'s uuid is already registered, as after an
interrupted run whose fetch of it had failed. -/
def c1st : RunState :=
  { stEmpty with
    uuidMap := [("2", { path := "Intro/Hello.md",
                        pathTitleList := ["Intro", "Hello.md"],
                        pathIdList := ["1", "2"], toc := tDoc })] }

/-- Chain entries root -> A -> B -> X for the path-derivation scenario. -/
def cA : Toc :=
  { uuid := "a", parent_uuid := "", title := "A", type := some "title",
    url := "", child_uuid := "" }

/-- Second chain entry. -/
def cB : Toc :=
  { uuid := "b", parent_uuid := "a", title := "B", type := some "title",
    url := "", child_uuid := "" }

/-- Leaf article titled X at the end of the chain. -/
def cX : Toc :=
  { uuid := "c", parent_uuid := "b", title := "X", type := some "doc",
    url := "xx", child_uuid := "" }

/-- The state after the loop has processed `cA` and `cB`. -/
def c5st : RunState :=
  match runLoop cfg0 [cA, cB] stEmpty with
  | some s => s
  | none => stEmpty

/-- Degenerate entry whose parent uuid is its own uuid. -/
def c4A : Toc :=
  { uuid := "a", parent_uuid := "a", title := "A", type := some "title",
    url := "", child_uuid := "" }

/-- A well-formed child of the degenerate entry. -/
def c4B : Toc :=
  { uuid := "b", parent_uuid := "a", title := "B", type := some "title",
    url := "", child_uuid := "" }

/-- Degenerate two-entry table of contents. -/
def c4info : BookInfo :=
  { bookId := some 1, bookName := "bk", bookDesc := "", tocList := [c4A, c4B] }

/-- The progress item registered for `c4A` by the run on `c4info`. -/
def c4piA : IProgressItem :=
  { path := "A", pathTitleList := ["A"], pathIdList := ["a"], toc := c4A }

/-- The uuid index at the moment the run on `c4info` walks `c4B`'s
ancestors. -/
def c4map : UuidMap := [("a", c4piA)]

/-- Root entry whose parent is absent from any index. -/
def c4wT : Toc :=
  { uuid := "r", parent_uuid := "", title := "R", type := some "title",
    url := "", child_uuid := "" }

/-- Single-title book used for whole-run examples. -/
def c3info : BookInfo :=
  { bookId := some 7, bookName := "bk", bookDesc := "", tocList := [tTitle] }

/-- A first, uninterrupted run over `c3info`. -/
def c3run1 : Except String (Option RunState) := mainRun "d" "u" okFetch c3info [] []

/-- The final state of that first run. -/
def c3r1 : RunState :=
  match c3run1 with
  | Except.ok (some s) => s
  | _ => stEmpty

/-- Single-title book for the summary-generation examples. -/
def c9info : BookInfo :=
  { bookId := some 5, bookName := "bk", bookDesc := "", tocList := [tTitle] }

/-- A persisted record covering the whole of `c9info` (one failed item;
count is what matters to the startup check). -/
def c9persisted : List (IProgressItem × Bool) := [(piTitle, false)]

/-- The state the run on `c9info` resumed from `c9persisted` returns:
the startup check fires and no traversal happens. -/
def c9st : RunState :=
  { uuidMap := [], fs := ["d/bk"], persisted := c9persisted, curr := 1,
    errArticleCount := 0, totalArticleCount := 0, warnArticleCount := 0,
    errArticleInfo := [], warnArticleInfo := [], events := [Ev.mkdir "d/bk"] }

/-- A fresh run over `c9info` (enters the traversal loop). -/
def c9wrun : Except String (Option RunState) := mainRun "d" "u" okFetch c9info [] []

/-- The final state of that fresh run. -/
def c9wst : RunState :=
  match c9wrun with
  | Except.ok (some s) => s
  | _ => stEmpty

/-- A one-article run whose fetch fails, for the loop-level examples. -/
def c10run : Option RunState := runLoop cfgBad [tTitle, tDoc] stEmpty

/-- The final state of that run. -/
def c10st : RunState :=
  match c10run with
  | some s => s
  | none => stEmpty

/-! Helper lemmas about the association-list model of the JS Map. -/

theorem lookup_map_update (m : UuidMap) (k : String) (v : IProgressItem)
    (h : (m.lookup k).isSome) :
    (m.map (fun p => if p.1 = k then (k, v) else p)).lookup k = some v := by
  induction m with
  | nil => simp [List.lookup] at h
  | cons a t ih =>
    obtain ⟨a1, a2⟩ := a
    by_cases hk : a1 = k
    · subst hk
      simp [List.lookup_cons]
    · have hbeq : (k == a1) = false := beq_eq_false_iff_ne.mpr fun e => hk e.symm
      rw [List.lookup_cons, hbeq] at h
      simp only [List.map_cons, if_neg hk, List.lookup_cons, hbeq]
      exact ih h

theorem lookup_append_absent (m : UuidMap) (k : String) (v : IProgressItem)
    (h : m.lookup k = none) :
    (m ++ [(k, v)]).lookup k = some v := by
  induction m with
  | nil => simp [List.lookup_cons]
  | cons a t ih =>
    obtain ⟨a1, a2⟩ := a
    by_cases hk : k = a1
    · subst hk
      simp [List.lookup_cons] at h
    · have hbeq : (k == a1) = false := beq_eq_false_iff_ne.mpr hk
      rw [List.lookup_cons, hbeq] at h
      rw [List.cons_append, List.lookup_cons, hbeq]
      exact ih h

theorem lookup_mapSet_self (m : UuidMap) (k : String) (v : IProgressItem) :
    (mapSet m k v).lookup k = some v := by
  unfold mapSet
  split
  · exact lookup_map_update m k v (by assumption)
  · rename_i h
    exact lookup_append_absent m k v (Option.not_isSome_iff_eq_none.mp h)

theorem lookup_map_update_ne (m : UuidMap) (k k' : String) (v : IProgressItem)
    (hne : k ≠ k') :
    (m.map (fun p => if p.1 = k' then (k', v) else p)).lookup k = m.lookup k := by
  induction m with
  | nil => simp
  | cons a t ih =>
    obtain ⟨a1, a2⟩ := a
    by_cases h1 : a1 = k'
    · subst h1
      have hbeq : (k == a1) = false := beq_eq_false_iff_ne.mpr hne
      simp only [List.map_cons, List.lookup_cons, hbeq, eq_self_iff_true, if_true]
      exact ih
    · simp only [List.map_cons, if_neg h1, List.lookup_cons]
      cases hb : (k == a1) with
      | true => rfl
      | false => exact ih

theorem lookup_append_ne (m : UuidMap) (k k' : String) (v : IProgressItem)
    (hne : k ≠ k') :
    (m ++ [(k', v)]).lookup k = m.lookup k := by
  induction m with
  | nil =>
    have hbeq : (k == k') = false := beq_eq_false_iff_ne.mpr hne
    simp [List.lookup_cons, hbeq]
  | cons a t ih =>
    obtain ⟨a1, a2⟩ := a
    rw [List.cons_append, List.lookup_cons, List.lookup_cons]
    cases hb : (k == a1) with
    | true => rfl
    | false => exact ih

theorem lookup_mapSet_isSome (m : UuidMap) (k k' : String) (v : IProgressItem)
    (h : (m.lookup k).isSome) : ((mapSet m k' v).lookup k).isSome := by
  by_cases he : k = k'
  · subst he
    rw [lookup_mapSet_self]
    rfl
  · unfold mapSet
    split
    · rw [lookup_map_update_ne m k k' v he]
      exact h
    · rw [lookup_append_ne m k k' v he]
      exact h

theorem mem_of_lookup (m : UuidMap) (k : String) (v : IProgressItem)
    (h : m.lookup k = some v) : (k, v) ∈ m := by
  induction m with
  | nil => simp [List.lookup] at h
  | cons a t ih =>
    obtain ⟨a1, a2⟩ := a
    rw [List.lookup_cons] at h
    by_cases hk : k = a1
    · subst hk
      simp only [beq_self_eq_true] at h
      cases h
      exact List.mem_cons_self _ _
    · have hbeq : (k == a1) = false := beq_eq_false_iff_ne.mpr hk
      rw [hbeq] at h
      exact List.mem_cons_of_mem _ (ih h)

theorem mem_addPath_self (fs : List String) (p : String) : p ∈ addPath fs p := by
  unfold addPath
  split
  · assumption
  · simp

theorem mem_addPath_of (fs : List String) (p q : String) (h : q ∈ fs) :
    q ∈ addPath fs p := by
  unfold addPath
  split
  · exact h
  · exact List.mem_append_left _ h

/-! The path sanitizer. -/

theorem mem_illegalList_iff (c : Char) : c ∈ illegalList ↔ isIllegalChar c = true := by
  simp [illegalList, isIllegalChar]
  tauto

theorem removeFirstWs_take_drop (l : List Char) :
    removeFirstWs l =
      l.takeWhile (fun c => !isJsWhitespace c) ++
        (l.dropWhile (fun c => !isJsWhitespace c)).tail := by
  induction l with
  | nil => rfl
  | cons c cs ih =>
    by_cases h : isJsWhitespace c
    · simp [removeFirstWs, h, List.takeWhile_cons, List.dropWhile_cons]
    · simp [removeFirstWs, h, List.takeWhile_cons, List.dropWhile_cons, ih]

/-- C8: `fixPath` replaces each occurrence of the eleven filesystem-illegal
characters (backslash, forward slash, colon, asterisk, question mark,
double-quote, angle brackets, pipe, newline, carriage return) by an
underscore, then removes only the first whitespace character of the
result, keeping every character before it and every character after it
(in particular all later whitespace); the empty input yields the empty
output, and the function is a total function on strings. -/
theorem c8_fixPath_sanitizer (s : String) :
    fixPath "" = "" ∧
    fixPath s = String.mk
      ((s.data.map (fun c => if c ∈ illegalList then '_' else c)).takeWhile
          (fun c => !isJsWhitespace c) ++
        ((s.data.map (fun c => if c ∈ illegalList then '_' else c)).dropWhile
          (fun c => !isJsWhitespace c)).tail) := by
  have hmap : ∀ l : List Char,
      replaceIllegal l = l.map (fun c => if c ∈ illegalList then '_' else c) := by
    intro l
    unfold replaceIllegal
    apply List.map_congr_left
    intro c _
    by_cases h : isIllegalChar c
    · rw [if_pos h, if_pos ((mem_illegalList_iff c).mpr h)]
    · rw [if_neg h, if_neg (fun hc => h ((mem_illegalList_iff c).mp hc))]
  constructor
  · rfl
  · by_cases hs : s = ""
    · subst hs
      rfl
    · rw [fixPath, if_neg hs, removeFirstWs_take_drop, hmap]

/-! C1: entries whose uuid is already indexed are skipped unchanged. -/

theorem replay_registers_failed (pre post : List (IProgressItem × Bool))
    (q : IProgressItem) :
    ((replayMap (pre ++ (q, false) :: post)).lookup q.toc.uuid).isSome := by
  unfold replayMap
  rw [List.foldl_append]
  have hstep : ∀ (l : List (IProgressItem × Bool)) (m : UuidMap),
      ((m.lookup q.toc.uuid).isSome) →
      (((l.foldl (fun m r => mapSet m r.1.toc.uuid r.1) m).lookup q.toc.uuid).isSome) := by
    intro l
    induction l with
    | nil => intro m h; exact h
    | cons r t ih =>
      intro m h
      exact ih _ (lookup_mapSet_isSome _ _ _ _ h)
  rw [List.foldl_cons]
  exact hstep post _ (by rw [lookup_mapSet_self]; rfl)

/-- C1: when a TOC entry's uuid is already present in the index the loop
body returns the state unchanged — no directory creation, no article
fetch, no new ProgressItem, no progress update, no event of any kind —
whatever ProgressItem (successful or failed) the uuid is bound to; and
the replay of a persisted record registers a previously failed item in
the index just like a successful one, so it too will be skipped. -/
theorem c1_skip_seen (cfg : Config) (st : RunState) (item : Toc)
    (pi : IProgressItem) (h : st.uuidMap.lookup item.uuid = some pi) :
    processEntry cfg st item = some st ∧
    ∀ (pre post : List (IProgressItem × Bool)) (q : IProgressItem),
      ((replayMap (pre ++ (q, false) :: post)).lookup q.toc.uuid).isSome := by
  constructor
  · unfold processEntry
    cases item.type with
    | none => rfl
    | some ty => simp [h]
  · intro pre post q
    exact replay_registers_failed pre post q

/-- C1 witness: the article entry `tDoc`, registered by a failed earlier
disposition in `c1st`, is skipped without any change of state. -/
theorem c1_skip_seen_witness :
    processEntry cfg0 c1st tDoc = some c1st ∧
    ((replayMap ([] ++ (piTitle, false) :: [])).lookup piTitle.toc.uuid).isSome := by
  have h := c1_skip_seen cfg0 c1st tDoc
    { path := "Intro/Hello.md", pathTitleList := ["Intro", "Hello.md"],
      pathIdList := ["1", "2"], toc := tDoc } (by decide)
  exact ⟨h.1, h.2 [] [] piTitle⟩

/-! C2: a failed article fetch is aggregated and the loop goes on. -/

/-- C2: when a leaf-article entry's fetch fails with message `msg`, the
loop body still finishes (the run is not aborted): it records
`{articleUrl, progressItem, message}` in the error list, still registers
the entry's ProgressItem in the index, still updates progress with
success = false, and touches nothing else — the filesystem, the warning
aggregator and every other entry's registration are exactly as before. -/
theorem c2_fetch_failure (cfg : Config) (st : RunState) (item : Toc) (ty msg : String)
    (htype : item.type = some ty)
    (hseen : st.uuidMap.lookup item.uuid = none)
    (hnc : ¬(jsToLower ty = "title" ∨ item.child_uuid ≠ "" ∨ jsToLower ty = "link"))
    (hurl : item.url ≠ "")
    (hfail : cfg.fetch item.uuid = Except.error msg) :
    processEntry cfg st item = some
      { st with
        totalArticleCount := st.totalArticleCount + 1
        errArticleCount := st.errArticleCount + 1
        errArticleInfo := st.errArticleInfo ++
          [ErrInfo.mk (cfg.articleUrlBase ++ "/" ++ item.url) (articleItem st item) msg]
        uuidMap := mapSet st.uuidMap item.uuid (articleItem st item)
        persisted := st.persisted ++ [(articleItem st item, false)]
        curr := st.curr + 1
        events := (st.events ++ [Ev.fetch item.uuid]) ++ [Ev.progress item.uuid false] } := by
  unfold processEntry
  rw [htype]
  simp only [hseen, Option.isSome_none, Bool.false_eq_true, if_false, if_neg hnc,
    if_pos hurl]
  unfold articleStep
  rw [hfail]
  rfl

/-- C2 witness: `tDoc` under the failing fetcher from a fresh state. -/
theorem c2_fetch_failure_witness :
    processEntry cfgBad stEmpty tDoc = some
      { stEmpty with
        totalArticleCount := stEmpty.totalArticleCount + 1
        errArticleCount := stEmpty.errArticleCount + 1
        errArticleInfo := stEmpty.errArticleInfo ++
          [ErrInfo.mk (cfgBad.articleUrlBase ++ "/" ++ tDoc.url) (articleItem stEmpty tDoc) "boom"]
        uuidMap := mapSet stEmpty.uuidMap tDoc.uuid (articleItem stEmpty tDoc)
        persisted := stEmpty.persisted ++ [(articleItem stEmpty tDoc, false)]
        curr := stEmpty.curr + 1
        events := (stEmpty.events ++ [Ev.fetch tDoc.uuid]) ++ [Ev.progress tDoc.uuid false] } :=
  c2_fetch_failure cfgBad stEmpty tDoc "DOC" "boom" rfl rfl (by decide) (by decide) rfl

/-! C5: the file path of a leaf article. -/

/-- C5: for a leaf-article entry the registered ProgressItem's segment
list is the parent ProgressItem's segments followed by
`fixPath(title) + ".md"` — with the empty prefix when the parent uuid is
absent from the index — and its path is those segments joined by `/`. -/
theorem c5_article_path (cfg : Config) (st : RunState) (item : Toc) (ty : String)
    (htype : item.type = some ty)
    (hseen : st.uuidMap.lookup item.uuid = none)
    (hnc : ¬(jsToLower ty = "title" ∨ item.child_uuid ≠ "" ∨ jsToLower ty = "link"))
    (hurl : item.url ≠ "") :
    processEntry cfg st item = some (articleStep cfg st item) ∧
    (articleStep cfg st item).uuidMap.lookup item.uuid = some (articleItem st item) ∧
    (articleItem st item).pathTitleList =
      (match st.uuidMap.lookup item.parent_uuid with
       | some p => p.pathTitleList
       | none => []) ++ [fixPath item.title ++ ".md"] ∧
    (articleItem st item).path = joinPath (articleItem st item).pathTitleList := by
  refine ⟨?_, ?_, ?_, rfl⟩
  · unfold processEntry
    rw [htype]
    simp only [hseen, Option.isSome_none, Bool.false_eq_true, if_false, if_neg hnc,
      if_pos hurl]
  · have h2 : (articleStep cfg st item).uuidMap =
        mapSet st.uuidMap item.uuid (articleItem st item) := by
      unfold articleStep
      cases cfg.fetch item.uuid <;> rfl
    rw [h2, lookup_mapSet_self]
  · unfold articleItem articlePre
    cases h : st.uuidMap.lookup item.parent_uuid <;> simp [h]

/-- C5 witness: the chain root -> A -> B -> X yields the file path
`A/B/X.md`. -/
theorem c5_article_path_witness :
    (processEntry cfg0 c5st cX = some (articleStep cfg0 c5st cX) ∧
      (articleStep cfg0 c5st cX).uuidMap.lookup cX.uuid = some (articleItem c5st cX) ∧
      (articleItem c5st cX).pathTitleList =
        (match c5st.uuidMap.lookup cX.parent_uuid with
         | some p => p.pathTitleList
         | none => []) ++ [fixPath cX.title ++ ".md"] ∧
      (articleItem c5st cX).path = joinPath (articleItem c5st cX).pathTitleList) ∧
    (articleItem c5st cX).path = "A/B/X.md" :=
  ⟨c5_article_path cfg0 c5st cX "doc" rfl (by decide) (by decide) (by decide), by decide⟩

/-! C7: link entries record a warning and never create a directory. -/

/-- C7: for an entry classified LINK no directory is created and no
mkdir event is emitted; the warning count is incremented and the warning
list gains the entry's ProgressItem — which carries the resolved path and
the original URL — while the item is registered in the index and
persisted with success = false; nothing else of the state changes. -/
theorem c7_link_no_directory (cfg : Config) (st : RunState) (item : Toc)
    (ty : String) (ts ids : List String)
    (htype : item.type = some ty)
    (hlink : jsToLower ty = "link")
    (hseen : st.uuidMap.lookup item.uuid = none)
    (hwalk : walkAux (st.uuidMap.length + 1) st.uuidMap item [] [] = some (ts, ids)) :
    processEntry cfg st item = some
      { st with
        warnArticleCount := st.warnArticleCount + 1
        warnArticleInfo := st.warnArticleInfo ++ [containerItem item ts ids]
        uuidMap := mapSet st.uuidMap item.uuid (containerItem item ts ids)
        persisted := st.persisted ++ [(containerItem item ts ids, false)]
        curr := st.curr + 1
        events := st.events ++ [Ev.progress item.uuid false] } ∧
    (containerItem item ts ids).toc.url = item.url ∧
    (containerItem item ts ids).path = joinPath ts := by
  refine ⟨?_, rfl, rfl⟩
  have hcond : jsToLower ty = "title" ∨ item.child_uuid ≠ "" ∨ jsToLower ty = "link" :=
    Or.inr (Or.inr hlink)
  unfold processEntry
  rw [htype]
  simp only [hseen, Option.isSome_none, Bool.false_eq_true, if_false, if_pos hcond, hwalk]
  unfold containerStep
  rw [hlink]
  rfl

/-- C7 witness: the root-level link entry `tLink` from a fresh state. -/
theorem c7_link_no_directory_witness :
    processEntry cfg0 stEmpty tLink = some
      { stEmpty with
        warnArticleCount := stEmpty.warnArticleCount + 1
        warnArticleInfo := stEmpty.warnArticleInfo ++ [containerItem tLink ["Ext"] ["3"]]
        uuidMap := mapSet stEmpty.uuidMap tLink.uuid (containerItem tLink ["Ext"] ["3"])
        persisted := stEmpty.persisted ++ [(containerItem tLink ["Ext"] ["3"], false)]
        curr := stEmpty.curr + 1
        events := stEmpty.events ++ [Ev.progress tLink.uuid false] } ∧
    (containerItem tLink ["Ext"] ["3"]).toc.url = tLink.url ∧
    (containerItem tLink ["Ext"] ["3"]).path = joinPath ["Ext"] :=
  c7_link_no_directory cfg0 stEmpty tLink "LINK" ["Ext"] ["3"] rfl (by decide) rfl rfl

/-! Projections of the two disposition steps. -/

theorem containerStep_uuidMap (cfg : Config) (st : RunState) (item : Toc)
    (itemType : String) (ts ids : List String) :
    (containerStep cfg st item itemType ts ids).uuidMap =
      mapSet st.uuidMap item.uuid (containerItem item ts ids) := by
  unfold containerStep updateProgress
  by_cases h : itemType = "link" <;> simp [h]

theorem containerStep_total (cfg : Config) (st : RunState) (item : Toc)
    (itemType : String) (ts ids : List String) :
    (containerStep cfg st item itemType ts ids).totalArticleCount =
      st.totalArticleCount := by
  unfold containerStep updateProgress
  by_cases h : itemType = "link" <;> simp [h]

theorem containerStep_curr (cfg : Config) (st : RunState) (item : Toc)
    (itemType : String) (ts ids : List String) :
    (containerStep cfg st item itemType ts ids).curr = st.curr + 1 := by
  unfold containerStep updateProgress
  by_cases h : itemType = "link" <;> simp [h]

theorem articleStep_uuidMap (cfg : Config) (st : RunState) (item : Toc) :
    (articleStep cfg st item).uuidMap =
      mapSet st.uuidMap item.uuid (articleItem st item) := by
  unfold articleStep updateProgress
  cases cfg.fetch item.uuid <;> rfl

theorem articleStep_total (cfg : Config) (st : RunState) (item : Toc) :
    (articleStep cfg st item).totalArticleCount = st.totalArticleCount + 1 := by
  unfold articleStep updateProgress
  cases cfg.fetch item.uuid <;> rfl

theorem articleStep_curr (cfg : Config) (st : RunState) (item : Toc) :
    (articleStep cfg st item).curr = st.curr + 1 := by
  unfold articleStep updateProgress
  cases cfg.fetch item.uuid <;> rfl

/-! C6: the classification of an entry. -/

/-- C6: for an entry not skipped by the type check or the resume index:
it receives the container-like disposition (registered in the index, no
article attempt counted, progress incremented) exactly when its
lowercased type is "title" or "link" or its child-marker field is
non-empty; otherwise it is a leaf article (fetch attempted, registered,
progress incremented) exactly when its url is non-empty; otherwise it is
skipped with no disposition at all; and an entry whose type is not a
string is skipped before any classification. -/
theorem c6_classification (cfg : Config) (st : RunState) (item : Toc) :
    (item.type = none → processEntry cfg st item = some st) ∧
    ∀ ty, item.type = some ty → st.uuidMap.lookup item.uuid = none →
      (((jsToLower ty = "title" ∨ jsToLower ty = "link" ∨ item.child_uuid ≠ "") →
        ∀ st', processEntry cfg st item = some st' →
          ((st'.uuidMap.lookup item.uuid).isSome ∧
            st'.totalArticleCount = st.totalArticleCount ∧
            st'.curr = st.curr + 1)) ∧
        (¬(jsToLower ty = "title" ∨ jsToLower ty = "link" ∨ item.child_uuid ≠ "") →
          item.url ≠ "" →
          (processEntry cfg st item = some (articleStep cfg st item) ∧
            ((articleStep cfg st item).uuidMap.lookup item.uuid).isSome ∧
            (articleStep cfg st item).totalArticleCount = st.totalArticleCount + 1 ∧
            (articleStep cfg st item).curr = st.curr + 1)) ∧
        (¬(jsToLower ty = "title" ∨ jsToLower ty = "link" ∨ item.child_uuid ≠ "") →
          item.url = "" → processEntry cfg st item = some st)) := by
  constructor
  · intro h0
    unfold processEntry
    rw [h0]
  · intro ty htype hseen
    have hiff : (jsToLower ty = "title" ∨ jsToLower ty = "link" ∨ item.child_uuid ≠ "") ↔
        (jsToLower ty = "title" ∨ item.child_uuid ≠ "" ∨ jsToLower ty = "link") := by
      tauto
    refine ⟨?_, ?_, ?_⟩
    · intro hc st' h
      have hcond := hiff.mp hc
      unfold processEntry at h
      rw [htype] at h
      simp only [hseen, Option.isSome_none, Bool.false_eq_true, if_false,
        if_pos hcond] at h
      cases hw : walkAux (st.uuidMap.length + 1) st.uuidMap item [] [] with
      | none => rw [hw] at h; cases h
      | some p =>
        obtain ⟨ts, ids⟩ := p
        rw [hw] at h
        cases h
        refine ⟨?_, containerStep_total cfg st item _ ts ids,
          containerStep_curr cfg st item _ ts ids⟩
        rw [containerStep_uuidMap, lookup_mapSet_self]
        rfl
    · intro hc hurl
      have hcond : ¬(jsToLower ty = "title" ∨ item.child_uuid ≠ "" ∨ jsToLower ty = "link") :=
        fun h => hc (hiff.mpr h)
      have hp : processEntry cfg st item = some (articleStep cfg st item) := by
        unfold processEntry
        rw [htype]
        simp only [hseen, Option.isSome_none, Bool.false_eq_true, if_false,
          if_neg hcond, if_pos hurl]
      refine ⟨hp, ?_, articleStep_total cfg st item, articleStep_curr cfg st item⟩
      rw [articleStep_uuidMap, lookup_mapSet_self]
      rfl
    · intro hc hurl
      have hcond : ¬(jsToLower ty = "title" ∨ item.child_uuid ≠ "" ∨ jsToLower ty = "link") :=
        fun h => hc (hiff.mpr h)
      unfold processEntry
      rw [htype]
      simp only [hseen, Option.isSome_none, Bool.false_eq_true, if_false,
        if_neg hcond, if_neg (show ¬(item.url ≠ "") from fun h => h hurl)]

/-- C6 witness: the leaf-article branch at `tDoc` from a fresh state. -/
theorem c6_classification_witness :
    processEntry cfg0 stEmpty tDoc = some (articleStep cfg0 stEmpty tDoc) ∧
    ((articleStep cfg0 stEmpty tDoc).uuidMap.lookup tDoc.uuid).isSome ∧
    (articleStep cfg0 stEmpty tDoc).totalArticleCount = stEmpty.totalArticleCount + 1 ∧
    (articleStep cfg0 stEmpty tDoc).curr = stEmpty.curr + 1 :=
  ((c6_classification cfg0 stEmpty tDoc).2 "DOC" rfl rfl).2.1 (by decide) (by decide)

/-! C4: termination of the ancestor walk. -/

theorem c4walkA (fuel : Nat) : ∀ ts ids, walkAux fuel c4map c4A ts ids = none := by
  induction fuel with
  | zero => intro ts ids; rfl
  | succ n ih =>
    intro ts ids
    show walkAux n c4map c4piA.toc (fixPath c4A.title :: ts) (c4A.uuid :: ids) = none
    exact ih _ _

theorem c4walkB (fuel : Nat) (ts ids : List String) :
    walkAux fuel c4map c4B ts ids = none := by
  cases fuel with
  | zero => rfl
  | succ n =>
    show walkAux n c4map c4piA.toc (fixPath c4B.title :: ts) (c4B.uuid :: ids) = none
    exact c4walkA n _ _

/-- C4 counterexample: on the degenerate table of contents `c4info`
(whose first entry names itself as its parent) the run registers that
entry and then performs the ancestor walk for the second entry over the
index `c4map`; that walk never reaches an absent parent whatever the
number of iterations — the source `while (tempItem)` loop runs forever —
so the traversal does not terminate (the embedded run yields
`Except.ok none`, its out-of-fuel marker). -/
theorem c4_counterexample :
    mainRun "d" "u" okFetch c4info [] [] = Except.ok none ∧
    ¬ WalkTerminates c4map c4B := by
  constructor
  · rfl
  · rintro ⟨fuel, h⟩
    rw [c4walkB fuel [] []] at h
    simp at h

theorem walkAux_mono (m : UuidMap) :
    ∀ (f : Nat) (t : Toc) (ts ids : List String) (f' : Nat)
      (r : List String × List String),
      f ≤ f' → walkAux f m t ts ids = some r → walkAux f' m t ts ids = some r := by
  intro f
  induction f with
  | zero =>
    intro t ts ids f' r _ h
    simp [walkAux] at h
  | succ n ih =>
    intro t ts ids f' r hle h
    cases f' with
    | zero => omega
    | succ n' =>
      simp only [walkAux] at h ⊢
      cases hl : m.lookup t.parent_uuid with
      | none =>
        simp only [hl] at h ⊢
        exact h
      | some p =>
        simp only [hl] at h ⊢
        exact ih _ _ _ _ _ (by omega) h

theorem walk_term_of_measure (m : UuidMap) (mu : IProgressItem → Nat)
    (hdec : ∀ p ∈ m, ∀ v, m.lookup p.2.toc.parent_uuid = some v → mu v < mu p.2) :
    ∀ (n : Nat) (v : IProgressItem) (k : String), (k, v) ∈ m → mu v ≤ n →
      ∀ ts ids, ∃ r, walkAux (n + 1) m v.toc ts ids = some r := by
  intro n
  induction n with
  | zero =>
    intro v k hmem hmu ts ids
    simp only [walkAux]
    cases hl : m.lookup v.toc.parent_uuid with
    | none => exact ⟨_, rfl⟩
    | some w =>
      have hlt : mu w < mu v := hdec (k, v) hmem w hl
      omega
  | succ n ih =>
    intro v k hmem hmu ts ids
    simp only [walkAux]
    cases hl : m.lookup v.toc.parent_uuid with
    | none => exact ⟨_, rfl⟩
    | some w =>
      have hlt : mu w < mu v := hdec (k, v) hmem w hl
      have hwmem := mem_of_lookup m _ w hl
      exact ih w _ hwmem (by omega) _ _

/-- C4 amended: the ancestor walk is truncated at the first parent uuid
absent from the index and, whenever the registered items admit a measure
that strictly decreases from an item to its registered parent (as
insertion order does when every entry's parent is registered before it,
i.e. for topologically ordered input) and is bounded by the index size,
the walk terminates within index-size-bounded fuel; in particular a
child whose parent is not yet registered gets a path rooted at itself,
not an error.  Without such a measure — degenerate parent references
forming a cycle among registered items — the walk need not terminate
(see the counterexample). -/
theorem c4_walk_terminates_amended (m : UuidMap) (t : Toc)
    (mu : IProgressItem → Nat)
    (hdec : ∀ p ∈ m, ∀ v, m.lookup p.2.toc.parent_uuid = some v → mu v < mu p.2)
    (hbd : ∀ p ∈ m, mu p.2 < m.length) :
    (∃ r, walkAux (m.length + 1) m t [] [] = some r) ∧
    (m.lookup t.parent_uuid = none →
      walkAux (m.length + 1) m t [] [] = some ([fixPath t.title], [t.uuid])) := by
  constructor
  · cases hl : m.lookup t.parent_uuid with
    | none =>
      refine ⟨([fixPath t.title], [t.uuid]), ?_⟩
      simp only [walkAux, hl]
    | some w =>
      have hwmem := mem_of_lookup m _ w hl
      have hmu : mu w < m.length := hbd _ hwmem
      obtain ⟨r, hr⟩ := walk_term_of_measure m mu hdec (mu w) w _ hwmem le_rfl
        [fixPath t.title] [t.uuid]
      refine ⟨r, ?_⟩
      simp only [walkAux, hl]
      exact walkAux_mono m (mu w + 1) _ _ _ m.length r (by omega) hr
  · intro hl
    simp only [walkAux, hl]

/-- C4 amended witness: a root entry over the empty index, with the
constant-zero measure. -/
theorem c4_walk_terminates_amended_witness :
    walkAux ((([] : UuidMap)).length + 1) ([] : UuidMap) c4wT [] [] =
      some ([fixPath c4wT.title], [c4wT.uuid]) :=
  (c4_walk_terminates_amended [] c4wT (fun _ => 0) (by simp) (by simp)).2 rfl

/-! C10: well-formedness of every constructed ProgressItem. -/

theorem containerStep_persisted (cfg : Config) (st : RunState) (item : Toc)
    (itemType : String) (ts ids : List String) :
    (containerStep cfg st item itemType ts ids).persisted =
      st.persisted ++ [(containerItem item ts ids, itemType != "link")] := by
  unfold containerStep updateProgress
  by_cases h : itemType = "link" <;> simp [h]

theorem articleStep_persisted (cfg : Config) (st : RunState) (item : Toc) :
    (articleStep cfg st item).persisted =
      st.persisted ++ [(articleItem st item, isOkB (cfg.fetch item.uuid))] := by
  unfold articleStep updateProgress
  cases cfg.fetch item.uuid <;> rfl

theorem walkAux_shape (m : UuidMap) :
    ∀ (fuel : Nat) (t : Toc) (ts ids T I : List String),
      walkAux fuel m t ts ids = some (T, I) →
      ∃ T0 I0, T = T0 ++ fixPath t.title :: ts ∧ I = I0 ++ t.uuid :: ids ∧
        T0.length = I0.length := by
  intro fuel
  induction fuel with
  | zero =>
    intro t ts ids T I h
    simp [walkAux] at h
  | succ n ih =>
    intro t ts ids T I h
    simp only [walkAux] at h
    cases hl : m.lookup t.parent_uuid with
    | none =>
      simp only [hl, Option.some.injEq, Prod.mk.injEq] at h
      obtain ⟨hT, hI⟩ := h
      exact ⟨[], [], hT.symm, hI.symm, rfl⟩
    | some p =>
      simp only [hl] at h
      obtain ⟨T0, I0, hT, hI, hlen⟩ := ih p.toc _ _ T I h
      refine ⟨T0 ++ [fixPath p.toc.title], I0 ++ [p.toc.uuid], ?_, ?_, ?_⟩
      · rw [hT]; simp
      · rw [hI]; simp
      · simp [hlen]

theorem wf_containerItem (m : UuidMap) (fuel : Nat) (t : Toc) (T I : List String)
    (h : walkAux fuel m t [] [] = some (T, I)) :
    wfItem (containerItem t T I) := by
  obtain ⟨T0, I0, hT, hI, hlen⟩ := walkAux_shape m fuel t [] [] T I h
  subst hT
  subst hI
  unfold wfItem containerItem
  refine ⟨?_, ?_, rfl⟩
  · simp [hlen]
  · simp

theorem wf_articleItem (st : RunState) (item : Toc)
    (hwf : ∀ p ∈ st.uuidMap, wfItem p.2) :
    wfItem (articleItem st item) := by
  unfold wfItem articleItem articlePre
  cases hl : st.uuidMap.lookup item.parent_uuid with
  | none => simp
  | some p =>
    have hp := hwf _ (mem_of_lookup _ _ _ hl)
    unfold wfItem at hp
    simp [hp.1]

theorem wf_mapSet (m : UuidMap) (k : String) (v : IProgressItem)
    (hwf : ∀ p ∈ m, wfItem p.2) (hv : wfItem v) :
    ∀ p ∈ mapSet m k v, wfItem p.2 := by
  intro p hp
  unfold mapSet at hp
  split at hp
  · obtain ⟨q, hq, hfq⟩ := List.mem_map.mp hp
    by_cases h1 : q.1 = k
    · rw [if_pos h1] at hfq
      rw [← hfq]
      exact hv
    · rw [if_neg h1] at hfq
      rw [← hfq]
      exact hwf q hq
  · rcases List.mem_append.mp hp with h | h
    · exact hwf p h
    · rw [List.mem_singleton.mp h]
      exact hv

theorem processEntry_wf (cfg : Config) (st : RunState) (item : Toc) (st' : RunState)
    (h : processEntry cfg st item = some st')
    (hwf : ∀ p ∈ st.uuidMap, wfItem p.2) :
    (∀ p ∈ st'.uuidMap, wfItem p.2) ∧
    (∀ q ∈ st'.persisted, q ∈ st.persisted ∨ wfItem q.1) := by
  unfold processEntry at h
  cases htype : item.type with
  | none =>
    simp only [htype] at h
    cases h
    exact ⟨hwf, fun q hq => Or.inl hq⟩
  | some ty =>
    simp only [htype] at h
    by_cases hseen : (st.uuidMap.lookup item.uuid).isSome
    · simp only [hseen, if_true] at h
      cases h
      exact ⟨hwf, fun q hq => Or.inl hq⟩
    · rw [Bool.not_eq_true] at hseen
      simp only [hseen, Bool.false_eq_true, if_false] at h
      by_cases hcond : jsToLower ty = "title" ∨ item.child_uuid ≠ "" ∨ jsToLower ty = "link"
      · rw [if_pos hcond] at h
        cases hw : walkAux (st.uuidMap.length + 1) st.uuidMap item [] [] with
        | none =>
          rw [hw] at h
          cases h
        | some p =>
          obtain ⟨ts, ids⟩ := p
          rw [hw] at h
          cases h
          have hwfc := wf_containerItem st.uuidMap _ item ts ids hw
          constructor
          · rw [containerStep_uuidMap]
            exact wf_mapSet _ _ _ hwf hwfc
          · intro q hq
            rw [containerStep_persisted] at hq
            rcases List.mem_append.mp hq with hin | hin
            · exact Or.inl hin
            · rw [List.mem_singleton.mp hin]
              exact Or.inr hwfc
      · rw [if_neg hcond] at h
        by_cases hurl : item.url ≠ ""
        · rw [if_pos hurl] at h
          cases h
          have hwfa := wf_articleItem st item hwf
          constructor
          · rw [articleStep_uuidMap]
            exact wf_mapSet _ _ _ hwf hwfa
          · intro q hq
            rw [articleStep_persisted] at hq
            rcases List.mem_append.mp hq with hin | hin
            · exact Or.inl hin
            · rw [List.mem_singleton.mp hin]
              exact Or.inr hwfa
        · rw [if_neg hurl] at h
          cases h
          exact ⟨hwf, fun q hq => Or.inl hq⟩

/-- C10: starting from a state whose index only holds well-formed
ProgressItems, every ProgressItem the traversal loop constructs — for
container-like entries and leaf articles alike — has parallel
`pathTitleList` and `pathIdList` of equal length, carries its own uuid as
the last element of `pathIdList`, and has `path` equal to
`pathTitleList` joined by the `/` separator; the index keeps only such
items and every newly persisted record carries such an item. -/
theorem c10_wellformed_items (cfg : Config) (l : List Toc) (st st' : RunState)
    (h : runLoop cfg l st = some st')
    (hwf : ∀ p ∈ st.uuidMap, wfItem p.2) :
    (∀ p ∈ st'.uuidMap, wfItem p.2) ∧
    (∀ q ∈ st'.persisted, q ∈ st.persisted ∨ wfItem q.1) := by
  induction l generalizing st with
  | nil =>
    cases h
    exact ⟨hwf, fun q hq => Or.inl hq⟩
  | cons item rest ih =>
    unfold runLoop at h
    cases hp : processEntry cfg st item with
    | none =>
      rw [hp] at h
      cases h
    | some st1 =>
      rw [hp] at h
      obtain ⟨hm, hpers⟩ := processEntry_wf cfg st item st1 hp hwf
      obtain ⟨hm2, hpers2⟩ := ih st1 h hm
      refine ⟨hm2, fun q hq => ?_⟩
      rcases hpers2 q hq with hin | hwfq
      · rcases hpers q hin with hin2 | hwfq2
        · exact Or.inl hin2
        · exact Or.inr hwfq2
      · exact Or.inr hwfq

/-- C10 witness: the ProgressItem built for the failed article `tDoc` in
the two-entry run `c10run` is well-formed. -/
theorem c10_wellformed_items_witness :
    wfItem ({ path := "Intro/Hello.md", pathTitleList := ["Intro", "Hello.md"],
              pathIdList := ["1", "2"], toc := tDoc } : IProgressItem) := by
  have h := c10_wellformed_items cfgBad [tTitle, tDoc] stEmpty c10st rfl
    (by simp [stEmpty])
  have hq := h.2
    ({ path := "Intro/Hello.md", pathTitleList := ["Intro", "Hello.md"],
       pathIdList := ["1", "2"], toc := tDoc }, false) (by decide)
  rcases hq with hin | hwf
  · simp [stEmpty] at hin
  · exact hwf

/-! Effect bookkeeping of one loop iteration, for the run-level claims. -/

theorem addPath_mem_eq (fs : List String) (p : String) (h : p ∈ fs) :
    addPath fs p = fs := by
  unfold addPath
  rw [if_pos h]

theorem containerStep_fs (cfg : Config) (st : RunState) (item : Toc)
    (itemType : String) (ts ids : List String) :
    (containerStep cfg st item itemType ts ids).fs =
      if itemType = "link" then st.fs
      else addPath st.fs (cfg.bookPath ++ "/" ++ joinPath ts) := by
  unfold containerStep updateProgress
  by_cases h : itemType = "link" <;> simp [h]

theorem containerStep_events (cfg : Config) (st : RunState) (item : Toc)
    (itemType : String) (ts ids : List String) :
    (containerStep cfg st item itemType ts ids).events =
      st.events ++
        ((if itemType = "link" then []
          else [Ev.mkdir (cfg.bookPath ++ "/" ++ joinPath ts)]) ++
          [Ev.progress item.uuid (itemType != "link")]) := by
  unfold containerStep updateProgress
  by_cases h : itemType = "link" <;> simp [h, containerItem]

theorem articleStep_fs (cfg : Config) (st : RunState) (item : Toc) :
    (articleStep cfg st item).fs =
      match cfg.fetch item.uuid with
      | Except.ok _ => addPath st.fs (cfg.bookPath ++ "/" ++ (articleItem st item).path)
      | Except.error _ => st.fs := by
  unfold articleStep updateProgress
  cases cfg.fetch item.uuid <;> rfl

theorem articleStep_events (cfg : Config) (st : RunState) (item : Toc) :
    (articleStep cfg st item).events =
      st.events ++
        ((match cfg.fetch item.uuid with
          | Except.ok _ => [Ev.fetch item.uuid,
              Ev.fileWrite (cfg.bookPath ++ "/" ++ (articleItem st item).path)]
          | Except.error _ => [Ev.fetch item.uuid]) ++
          [Ev.progress item.uuid (isOkB (cfg.fetch item.uuid))]) := by
  unfold articleStep updateProgress
  cases cfg.fetch item.uuid <;> simp [articleItem]

theorem processEntry_effects (cfg : Config) (st : RunState) (item : Toc)
    (st' : RunState) (h : processEntry cfg st item = some st') :
    (∀ p, p ∈ st.fs → p ∈ st'.fs) ∧
    ((st'.curr = st.curr ∧ st'.persisted = st.persisted) ∨
      ∃ q, st'.persisted = st.persisted ++ [q] ∧ st'.curr = st.curr + 1) ∧
    (∃ ext, st'.events = st.events ++ ext ∧ Ev.summaryGen ∉ ext) := by
  unfold processEntry at h
  cases htype : item.type with
  | none =>
    simp only [htype] at h
    cases h
    exact ⟨fun p hp => hp, Or.inl ⟨rfl, rfl⟩, [], by simp, by simp⟩
  | some ty =>
    simp only [htype] at h
    by_cases hseen : (st.uuidMap.lookup item.uuid).isSome
    · simp only [hseen, if_true] at h
      cases h
      exact ⟨fun p hp => hp, Or.inl ⟨rfl, rfl⟩, [], by simp, by simp⟩
    · rw [Bool.not_eq_true] at hseen
      simp only [hseen, Bool.false_eq_true, if_false] at h
      by_cases hcond : jsToLower ty = "title" ∨ item.child_uuid ≠ "" ∨ jsToLower ty = "link"
      · rw [if_pos hcond] at h
        cases hw : walkAux (st.uuidMap.length + 1) st.uuidMap item [] [] with
        | none =>
          rw [hw] at h
          cases h
        | some p =>
          obtain ⟨ts, ids⟩ := p
          rw [hw] at h
          cases h
          refine ⟨?_, ?_, ?_⟩
          · intro q hq
            rw [containerStep_fs]
            split
            · exact hq
            · exact mem_addPath_of _ _ _ hq
          · exact Or.inr ⟨_, containerStep_persisted cfg st item _ ts ids,
              containerStep_curr cfg st item _ ts ids⟩
          · refine ⟨_, containerStep_events cfg st item _ ts ids, ?_⟩
            intro hmem
            rcases List.mem_append.mp hmem with hm | hm
            · split at hm <;> simp at hm
            · simp at hm
      · rw [if_neg hcond] at h
        by_cases hurl : item.url ≠ ""
        · rw [if_pos hurl] at h
          cases h
          refine ⟨?_, ?_, ?_⟩
          · intro q hq
            rw [articleStep_fs]
            cases cfg.fetch item.uuid with
            | ok _ => exact mem_addPath_of _ _ _ hq
            | error m => exact hq
          · exact Or.inr ⟨_, articleStep_persisted cfg st item,
              articleStep_curr cfg st item⟩
          · refine ⟨_, articleStep_events cfg st item, ?_⟩
            intro hmem
            rcases List.mem_append.mp hmem with hm | hm
            · cases hf : cfg.fetch item.uuid <;> simp [hf] at hm
            · simp at hm
        · rw [if_neg hurl] at h
          cases h
          exact ⟨fun p hp => hp, Or.inl ⟨rfl, rfl⟩, [], by simp, by simp⟩

theorem runLoop_effects (cfg : Config) (l : List Toc) (st st' : RunState)
    (h : runLoop cfg l st = some st') :
    (∀ p, p ∈ st.fs → p ∈ st'.fs) ∧
    (st.curr = st.persisted.length → st'.curr = st'.persisted.length) ∧
    (∃ ext, st'.events = st.events ++ ext ∧ Ev.summaryGen ∉ ext) := by
  induction l generalizing st with
  | nil =>
    cases h
    exact ⟨fun p hp => hp, fun hc => hc, [], by simp, by simp⟩
  | cons item rest ih =>
    unfold runLoop at h
    cases hp : processEntry cfg st item with
    | none =>
      rw [hp] at h
      cases h
    | some st1 =>
      rw [hp] at h
      obtain ⟨hfs1, hcp1, ext1, hev1, hns1⟩ := processEntry_effects cfg st item st1 hp
      obtain ⟨hfs2, hcp2, ext2, hev2, hns2⟩ := ih st1 h
      refine ⟨fun p hp2 => hfs2 p (hfs1 p hp2), ?_, ext1 ++ ext2, ?_, ?_⟩
      · intro hc
        apply hcp2
        rcases hcp1 with ⟨hcu, hpe⟩ | ⟨q, hpe, hcu⟩
        · rw [hcu, hpe]
          exact hc
        · rw [hcu, hpe]
          simp [hc]
      · rw [hev2, hev1, List.append_assoc]
      · intro hmem
        rcases List.mem_append.mp hmem with hm | hm
        · exact hns1 hm
        · exact hns2 hm

theorem mainRun_ok_facts (distDir base : String)
    (fetch : String → Except String Unit) (info : BookInfo)
    (persisted : List (IProgressItem × Bool)) (fs0 : List String)
    (bid : Nat) (r : RunState)
    (hbid : info.bookId = some bid)
    (h : mainRun distDir base fetch info persisted fs0 = Except.ok (some r)) :
    r.curr = r.persisted.length ∧
    bookPathOf distDir info.bookName bid ∈ r.fs := by
  simp only [mainRun, hbid] at h
  split at h
  · cases h
  · split at h
    · simp only [Except.ok.injEq, Option.some.injEq] at h
      subst h
      exact ⟨rfl, mem_addPath_self _ _⟩
    · split at h
      · cases h
      · rename_i st2 hrl
        simp only [Except.ok.injEq, Option.some.injEq] at h
        subst h
        obtain ⟨hfs, hcp, -⟩ := runLoop_effects _ _ _ _ hrl
        refine ⟨hcp rfl, ?_⟩
        exact mem_addPath_of _ _ _ (hfs _ (mem_addPath_self _ _))

/-! C3: idempotence of a second run after a fully completed one. -/

/-- C3: after a first run over the same source and output root has
completed fully (its completed counter equals the number of TOC entries),
a second run — whatever its fetcher — detects completion at startup and
returns before entering the traversal loop: its only filesystem call is
the idempotent creation of the already-existing book directory, so the
filesystem and the persisted progress record are returned unchanged, and
no fetch, progress, or summary action happens. -/
theorem c3_idempotent_rerun (distDir base : String)
    (fetchA fetchB : String → Except String Unit) (info : BookInfo)
    (persisted : List (IProgressItem × Bool)) (fs0 : List String)
    (bid : Nat) (r1 : RunState)
    (hbid : info.bookId = some bid)
    (h1 : mainRun distDir base fetchA info persisted fs0 = Except.ok (some r1))
    (hfull : r1.curr = info.tocList.length) :
    mainRun distDir base fetchB info r1.persisted r1.fs =
      Except.ok (some
        { uuidMap := [], fs := r1.fs, persisted := r1.persisted,
          curr := r1.persisted.length, errArticleCount := 0,
          totalArticleCount := 0, warnArticleCount := 0, errArticleInfo := [],
          warnArticleInfo := [],
          events := [Ev.mkdir (bookPathOf distDir info.bookName bid)] }) := by
  obtain ⟨hcp, hbp⟩ := mainRun_ok_facts distDir base fetchA info persisted fs0 bid r1
    hbid h1
  have h0 : ¬ info.tocList.length = 0 := by
    intro h0
    simp only [mainRun, hbid, if_pos h0] at h1
    cases h1
  have hdone : r1.persisted.length = info.tocList.length := by
    rw [← hcp]
    exact hfull
  simp only [mainRun, hbid, if_neg h0, if_pos hdone, Except.ok.injEq,
    Option.some.injEq]
  rw [addPath_mem_eq r1.fs _ hbp]

/-- C3 witness: re-running the completed single-title run `c3run1`
changes nothing. -/
theorem c3_idempotent_rerun_witness :
    mainRun "d" "u" okFetch c3info c3r1.persisted c3r1.fs =
      Except.ok (some
        { uuidMap := [], fs := c3r1.fs, persisted := c3r1.persisted,
          curr := c3r1.persisted.length, errArticleCount := 0,
          totalArticleCount := 0, warnArticleCount := 0, errArticleInfo := [],
          warnArticleInfo := [],
          events := [Ev.mkdir (bookPathOf "d" c3info.bookName 7)] }) :=
  c3_idempotent_rerun "d" "u" okFetch okFetch c3info [] [] 7 c3r1 rfl rfl (by decide)

/-! C9: when the summary generator runs. -/

/-- C9 counterexample: a run resumed from a progress record that already
covers every entry is not a fatal-precondition failure, yet it returns
before the traversal loop and the summary generator is never invoked —
so the summary generator is not invoked exactly once in every
non-fatal run. -/
theorem c9_counterexample :
    mainRun "d" "u" okFetch c9info c9persisted [] = Except.ok (some c9st) ∧
    c9st.events.count Ev.summaryGen = 0 :=
  ⟨rfl, by decide⟩

/-- C9 amended: a falsy book id or an empty TOC list is a fatal
precondition failure that aborts the run before any traversal and before
any summary generation; every run that enters the traversal loop (the
restored completed count differs from the entry count) and finishes
invokes the summary generator exactly once, as its final action after
the loop; and a run that detects completion at startup returns early and
never invokes it. -/
theorem c9_summary_after_loop (distDir base : String)
    (fetch : String → Except String Unit) (info : BookInfo)
    (persisted : List (IProgressItem × Bool)) (fs0 : List String) :
    (info.bookId = none →
      mainRun distDir base fetch info persisted fs0 =
        Except.error "No found book id") ∧
    (∀ bid, info.bookId = some bid → info.tocList = [] →
      mainRun distDir base fetch info persisted fs0 =
        Except.error "No found toc list") ∧
    (∀ r, mainRun distDir base fetch info persisted fs0 = Except.ok (some r) →
      persisted.length ≠ info.tocList.length →
      r.events.count Ev.summaryGen = 1 ∧
      r.events.getLast? = some Ev.summaryGen) ∧
    (∀ r, mainRun distDir base fetch info persisted fs0 = Except.ok (some r) →
      persisted.length = info.tocList.length →
      Ev.summaryGen ∉ r.events) := by
  refine ⟨?_, ?_, ?_, ?_⟩
  · intro h0
    simp only [mainRun, h0]
  · intro bid hbid htoc
    simp [mainRun, hbid, htoc]
  · intro r h hne
    cases hbid : info.bookId with
    | none =>
      simp only [mainRun, hbid] at h
      cases h
    | some bid =>
      by_cases h0 : info.tocList.length = 0
      · simp only [mainRun, hbid, if_pos h0] at h
        cases h
      · simp only [mainRun, hbid, if_neg h0, if_neg hne] at h
        split at h
        · simp at h
        · rename_i st2 hrl
          simp only [Except.ok.injEq, Option.some.injEq] at h
          subst h
          obtain ⟨-, -, ext, hev, hns⟩ := runLoop_effects _ _ _ _ hrl
          constructor
          · show (st2.events ++ [Ev.summaryGen]).count Ev.summaryGen = 1
            rw [List.count_append, hev, List.count_append]
            rw [List.count_eq_zero.mpr hns]
            simp
          · show (st2.events ++ [Ev.summaryGen]).getLast? = some Ev.summaryGen
            simp
  · intro r h hdone
    cases hbid : info.bookId with
    | none =>
      simp only [mainRun, hbid] at h
      cases h
    | some bid =>
      by_cases h0 : info.tocList.length = 0
      · simp only [mainRun, hbid, if_pos h0] at h
        cases h
      · simp only [mainRun, hbid, if_neg h0, if_pos hdone, Except.ok.injEq,
          Option.some.injEq] at h
        subst h
        simp

/-- C9 amended witness: a fresh single-title run invokes the summary
generator exactly once, as its final action. -/
theorem c9_summary_after_loop_witness :
    c9wst.events.count Ev.summaryGen = 1 ∧
    c9wst.events.getLast? = some Ev.summaryGen :=
  (c9_summary_after_loop "d" "u" okFetch c9info [] []).2.2.1 c9wst rfl (by decide)

end YuqueDl
